import Mathlib

/-!
Verification development for the image-decoding core of a VTF texture
container reader (`src/image.rs`).

The embedding below translates the core functions of `src/image.rs`:
`ImageFormat::frame_size`, `VTFImage::get_frame`, `VTFImage::decode_dxt`,
`VTFImage::decode` and the helper `convert_bgra`.  External collaborators
are represented as follows:

* `get_offset` (crate `utils` module, outside the core source file) is an
  external addressing function; its result for the one call the core makes
  is passed in as an explicit parameter `offRes : Except Error Nat`.
* the `texpresso` block decompressor is passed in as an explicit function
  parameter `dec`; a Rust `&mut [u8]` output slice cannot change length,
  which theorems record as a length-preservation hypothesis where needed.
* `image::ImageBuffer::from_raw` follows the image crate's documented
  contract: it returns `None` exactly when the buffer is *not big enough*,
  i.e. it accepts any buffer of length at least `width * height * channels`
  and keeps the whole buffer as the image's backing container.

Machine integers: `frame_size` computes in `u32` (Rust release semantics:
wrapping), modelled as `Nat` with explicit reduction modulo `2 ^ 32` after
each arithmetic operation.  Byte offsets and lengths are `usize`, modelled
as `Nat`.  A Rust panic (out-of-range slice index) is modelled as the
distinguished outcome `RResult.panicked`.
-/

namespace Vtf

/-- The pixel-format enumeration, translated from `ImageFormat` in
`src/image.rs` (discriminants `-1` through `25`, in source order). -/
inductive ImageFormat where
  | None
  | Rgba8888
  | Abgr8888
  | Rgb888
  | Bgr888
  | Rgb565
  | I8
  | Ia88
  | P8
  | A8
  | Rgb888Bluescreen
  | Bgr888Bluescreen
  | Argb8888
  | Bgra8888
  | Dxt1
  | Dxt3
  | Dxt5
  | Bgrx8888
  | Bgr565
  | Bgrx5551
  | Bgra4444
  | Dxt1Onebitalpha
  | Bgra5551
  | Uv88
  | Uvwq8888
  | Rgba16161616f
  | Rgba16161616
  | Uvlx8888
deriving DecidableEq, Repr

/-- Modelled from the spec: the crate-level error type (`crate::Error`,
defined outside the core source file).  §7 of the spec names the kinds the
core can surface: `UnsupportedImageFormat(format)`, `InvalidImageData`,
and an out-of-bounds kind ("or equivalent"). -/
inductive Error where
  | UnsupportedImageFormat (format : ImageFormat)
  | InvalidImageData
  | OutOfBounds
deriving DecidableEq, Repr

deriving instance DecidableEq for Except

/-- Reduction modulo `2 ^ 32`: the result of one `u32` arithmetic
operation in Rust release mode. -/
def u32 (n : Nat) : Nat := n % 4294967296

/-- Translated from `ImageFormat::frame_size` in `src/image.rs`.  The Rust
function computes in `u32`; every `+` and `*` is followed by `u32`
reduction (`/` on `u32` cannot overflow). -/
def ImageFormat.frame_size (format : ImageFormat) (width height : Nat) :
    Except Error Nat :=
  match format with
  | .None => .ok 0
  | .Rgba8888 => .ok (u32 (u32 (width * height) * 4))
  | .Abgr8888 => .ok (u32 (u32 (width * height) * 4))
  | .Rgb888 => .ok (u32 (u32 (width * height) * 3))
  | .Bgr888 => .ok (u32 (u32 (width * height) * 3))
  | .Rgb565 => .ok (u32 (u32 (width * height) * 2))
  | .I8 => .ok (u32 (u32 (width * height) * 1))
  | .Ia88 => .ok (u32 (u32 (width * height) * 2))
  | .A8 => .ok (u32 (width * height))
  | .Argb8888 => .ok (u32 (u32 (width * height) * 4))
  | .Bgra8888 => .ok (u32 (u32 (width * height) * 4))
  | .Dxt1 => .ok (u32 (u32 (u32 (width + 3) / 4 * (u32 (height + 3) / 4)) * 8))
  | .Dxt5 => .ok (u32 (u32 (u32 (width + 3) / 4 * (u32 (height + 3) / 4)) * 16))
  | .Rgba16161616f => .ok (u32 (u32 (width * height) * 8))
  | .Rgba16161616 => .ok (u32 (u32 (width * height) * 8))
  | _ => .error (.UnsupportedImageFormat format)

end Vtf

namespace Texpresso

/-- The block-compression schemes of the external `texpresso` crate that
`src/image.rs` uses (`Format::Bc1`, `Format::Bc2`, `Format::Bc3`). -/
inductive Format where
  | Bc1
  | Bc2
  | Bc3
deriving DecidableEq, Repr

end Texpresso

namespace Vtf

/-- Outcome of a Rust call that can also panic: `ok` and `err` mirror
`Result`, `panicked` models a Rust panic (here: out-of-range slicing). -/
inductive RResult (α : Type) where
  | ok (a : α)
  | err (e : Error)
  | panicked
deriving DecidableEq, Repr

/-- Lift an ordinary `Result` into the panic-aware outcome type. -/
def liftExcept {α : Type} : Except Error α → RResult α
  | .ok a => .ok a
  | .error e => .err e

/-- Translated from `struct VTFImage` in `src/image.rs`.  The `header`
field is consumed only by the external `get_offset` call and is therefore
represented implicitly through that call's result parameter.  `width` and
`height` are `u16` in the source and are widened to `u32` before every
use. -/
structure VTFImage where
  format : ImageFormat
  width : Nat
  height : Nat
  bytes : List UInt8
  offset : Nat
deriving DecidableEq, Repr

/-- Translated from `VTFImage::get_frame`.  `offRes` is the result of the
external call `get_offset(&self.header, &self.format, frame, 0, 0, 0)`.
The source returns `Ok(&self.bytes[base..base + frame_size])`; Rust range
slicing panics when the end of the range exceeds the slice length, which
is the `panicked` branch below. -/
def VTFImage.get_frame (img : VTFImage) (offRes : Except Error Nat) :
    RResult (List UInt8) :=
  match img.format.frame_size img.width img.height with
  | .error e => .err e
  | .ok size =>
    match offRes with
    | .error e => .err e
    | .ok off =>
      if img.offset + off + size ≤ img.bytes.length then
        .ok ((img.bytes.drop (img.offset + off)).take size)
      else
        .panicked

/-- Translated from `convert_bgra` in `src/image.rs`:
`for src in bgra.chunks_exact_mut(4)` swaps bytes 0 and 2 of every
complete 4-byte chunk; the remainder (fewer than 4 bytes) is untouched. -/
def convert_bgra : List UInt8 → List UInt8
  | b :: g :: r :: a :: rest => r :: g :: b :: a :: convert_bgra rest
  | rest => rest

/-- Translated from `VTFImage::decode_dxt`: allocate a zeroed output of
`width * height * 4` bytes and let the external decompressor fill it.
The source wraps the buffer in `Ok`; it cannot fail. -/
def VTFImage.decode_dxt
    (dec : Texpresso.Format → List UInt8 → Nat → Nat → List UInt8 → List UInt8)
    (variant : Texpresso.Format) (bytes : List UInt8) (width height : Nat) :
    List UInt8 :=
  dec variant bytes width height (List.replicate (width * height * 4) 0)

/-- Translated from `DynamicImage` of the external image crate, restricted
to the two variants `src/image.rs` constructs.  The backing container is
kept whole, exactly as `ImageBuffer` keeps the container handed to
`from_raw`. -/
inductive DynamicImage where
  | ImageRgb8 (width height : Nat) (data : List UInt8)
  | ImageRgba8 (width height : Nat) (data : List UInt8)
deriving DecidableEq, Repr

/-- Translated from `VTFImage::image_from_buffer`, specialised by the
channel count of the pixel type `P`.  `ImageBuffer::from_raw` is documented
to return `None` exactly when the buffer is not big enough, i.e. when its
length is below `width * height * channels`; otherwise it keeps the whole
buffer.  A `None` becomes `Error::InvalidImageData`. -/
def image_from_buffer (channels : Nat)
    (mk : Nat → Nat → List UInt8 → DynamicImage)
    (width height : Nat) (buf : List UInt8) : Except Error DynamicImage :=
  if width * height * channels ≤ buf.length then
    .ok (mk width height buf)
  else
    .error .InvalidImageData

/-- Pixel `i` of an `Rgb8` image buffer: three consecutive bytes starting
at byte `3 * i` of the backing container (the image crate's `Rgb<u8>`
layout). -/
def rgb8_pixel (data : List UInt8) (i : Nat) : List UInt8 :=
  (data.drop (3 * i)).take 3

/-- Translated from `VTFImage::decode` in `src/image.rs`.  `dec` stands
for the external `texpresso` decompressor (`variant.decompress`), `offRes`
for the external `get_offset` result used by `get_frame`. -/
def VTFImage.decode (img : VTFImage)
    (dec : Texpresso.Format → List UInt8 → Nat → Nat → List UInt8 → List UInt8)
    (offRes : Except Error Nat) : RResult DynamicImage :=
  match img.get_frame offRes with
  | .err e => .err e
  | .panicked => .panicked
  | .ok bytes =>
    match img.format with
    | .Dxt1 =>
        liftExcept (image_from_buffer 4 .ImageRgba8 img.width img.height
          (VTFImage.decode_dxt dec .Bc1 bytes img.width img.height))
    | .Dxt1Onebitalpha =>
        liftExcept (image_from_buffer 4 .ImageRgba8 img.width img.height
          (VTFImage.decode_dxt dec .Bc1 bytes img.width img.height))
    | .Dxt3 =>
        liftExcept (image_from_buffer 4 .ImageRgba8 img.width img.height
          (VTFImage.decode_dxt dec .Bc2 bytes img.width img.height))
    | .Dxt5 =>
        liftExcept (image_from_buffer 4 .ImageRgba8 img.width img.height
          (VTFImage.decode_dxt dec .Bc3 bytes img.width img.height))
    | .Rgba8888 =>
        liftExcept (image_from_buffer 4 .ImageRgba8 img.width img.height bytes)
    | .Rgb888 =>
        liftExcept (image_from_buffer 3 .ImageRgb8 img.width img.height bytes)
    | .Bgr888 =>
        liftExcept (image_from_buffer 3 .ImageRgb8 img.width img.height
          (convert_bgra bytes))
    | .Bgra8888 =>
        liftExcept (image_from_buffer 3 .ImageRgb8 img.width img.height
          (convert_bgra bytes))
    | _ => .err (.UnsupportedImageFormat img.format)

/-- The set of formats with their own arm in `VTFImage::decode`'s match
(everything else falls to the catch-all `UnsupportedImageFormat` arm). -/
def in_dispatch : ImageFormat → Bool
  | .Dxt1 | .Dxt1Onebitalpha | .Dxt3 | .Dxt5
  | .Rgba8888 | .Rgb888 | .Bgr888 | .Bgra8888 => true
  | _ => false

/-- The `texpresso` scheme each Dxt decode arm passes to `decode_dxt`. -/
def dxt_variant : ImageFormat → Texpresso.Format
  | .Dxt3 => .Bc2
  | .Dxt5 => .Bc3
  | _ => .Bc1

/-- Spec-side table (follows the spec's words, for comparison with
`frame_size`): bytes per pixel of each supported uncompressed format —
1 for 8-bit single-channel, 2 for 16-bit packed, 3 for 24-bit RGB/BGR,
4 for 32-bit RGBA/BGRA/ARGB, 8 for 64-bit RGBA16 formats. -/
def bytes_per_pixel : ImageFormat → Option Nat
  | .I8 => some 1
  | .A8 => some 1
  | .Rgb565 => some 2
  | .Ia88 => some 2
  | .Rgb888 => some 3
  | .Bgr888 => some 3
  | .Rgba8888 => some 4
  | .Abgr8888 => some 4
  | .Argb8888 => some 4
  | .Bgra8888 => some 4
  | .Rgba16161616f => some 8
  | .Rgba16161616 => some 8
  | _ => none

/-- A trivial stand-in decompressor used for concrete evaluations: it
returns the output buffer unchanged (length-preserving, like any function
writing through a Rust `&mut [u8]`). -/
def decompress0 : Texpresso.Format → List UInt8 → Nat → Nat → List UInt8 →
    List UInt8 :=
  fun _ _ _ _ init => init

/-- C1 (counterexample): on an empty container buffer with format
`Rgba8888` and a 1×1 frame the computed range `[0, 4)` exceeds the buffer
length, and `get_frame` panics (out-of-range slice) instead of returning
an out-of-bounds error. -/
theorem get_frame_oob_panics :
    VTFImage.get_frame ⟨.Rgba8888, 1, 1, [], 0⟩ (.ok 0) = .panicked ∧
    0 + 0 + 4 > ([] : List UInt8).length := by
  decide

/-- C1 (amended): when the external offset computation succeeds,
`get_frame` returns the byte view `[base, base + size)` exactly when
`base + size` is within the buffer, and panics (rather than returning an
error) when `base + size` exceeds the buffer length; in particular it
never returns a byte view that extends past the buffer end. -/
theorem get_frame_bounds (fmt : ImageFormat) (w h : Nat) (bytes : List UInt8)
    (offset off size : Nat) (hsz : fmt.frame_size w h = .ok size) :
    (offset + off + size ≤ bytes.length →
      VTFImage.get_frame ⟨fmt, w, h, bytes, offset⟩ (.ok off) =
        .ok ((bytes.drop (offset + off)).take size)) ∧
    (bytes.length < offset + off + size →
      VTFImage.get_frame ⟨fmt, w, h, bytes, offset⟩ (.ok off) = .panicked) := by
  unfold VTFImage.get_frame
  simp only [hsz]
  constructor
  · intro hb
    rw [if_pos hb]
  · intro hb
    rw [if_neg (by omega)]

/-- C1 (witness): a 1×1 `Rgba8888` frame inside a 4-byte buffer is in
bounds and is returned as the byte view. -/
theorem get_frame_bounds_witness :
    VTFImage.get_frame ⟨.Rgba8888, 1, 1, [9, 8, 7, 6], 0⟩ (.ok 0) =
      .ok [9, 8, 7, 6] := by
  have h := (get_frame_bounds .Rgba8888 1 1 [9, 8, 7, 6] 0 0 4 (by decide)).1
    (by decide)
  simpa using h

/-- C3 (counterexample): `frame_size` computes in `u32`, which wraps: at
`w = h = 65536` the `Rgba8888` frame size is reported as `0`, not
`w * h * 4 = 2 ^ 34`. -/
theorem frame_size_overflow :
    ImageFormat.Rgba8888.frame_size 65536 65536 = .ok 0 ∧
    (65536 * 65536 * 4 : Nat) ≠ 0 := by
  constructor
  · rfl
  · norm_num

/-- The single `u32` multiply-by-constant step is exact when the true
product fits in 32 bits. -/
theorem u32_mul_exact (a c : Nat) (hc : 0 < c) (h : a * c < 4294967296) :
    u32 (u32 a * c) = a * c := by
  have ha : a < 4294967296 := by
    calc a = a * 1 := (Nat.mul_one a).symm
    _ ≤ a * c := Nat.mul_le_mul_left a hc
    _ < 4294967296 := h
  rw [u32, u32, Nat.mod_eq_of_lt ha, Nat.mod_eq_of_lt h]

/-- C3 (amended): for every supported uncompressed format,
`frame_size(format, w, h)` equals `w * h * bytes_per_pixel(format)` —
with `bytes_per_pixel` 1 for 8-bit single-channel, 2 for 16-bit packed,
3 for 24-bit RGB/BGR, 4 for 32-bit RGBA/BGRA/ARGB, 8 for 64-bit RGBA16 —
provided the product fits in `u32` (the arithmetic wraps modulo `2 ^ 32`
otherwise); this covers all of w, h in {0, 1, 4, 17, 256}. -/
theorem frame_size_uncompressed (fmt : ImageFormat) (w h bpp : Nat)
    (hb : bytes_per_pixel fmt = some bpp) (hov : w * h * bpp < 4294967296) :
    fmt.frame_size w h = .ok (w * h * bpp) := by
  cases fmt <;> simp only [bytes_per_pixel, Option.some.injEq,
    reduceCtorEq] at hb <;> try exact absurd hb (by simp)
  all_goals subst hb
  case I8 => rw [ImageFormat.frame_size, u32_mul_exact _ _ (by norm_num) hov]
  case A8 =>
    rw [ImageFormat.frame_size, u32, Nat.mod_eq_of_lt (by omega), Nat.mul_one]
  case Rgb565 => rw [ImageFormat.frame_size, u32_mul_exact _ _ (by norm_num) hov]
  case Ia88 => rw [ImageFormat.frame_size, u32_mul_exact _ _ (by norm_num) hov]
  case Rgb888 => rw [ImageFormat.frame_size, u32_mul_exact _ _ (by norm_num) hov]
  case Bgr888 => rw [ImageFormat.frame_size, u32_mul_exact _ _ (by norm_num) hov]
  case Rgba8888 =>
    rw [ImageFormat.frame_size, u32_mul_exact _ _ (by norm_num) hov]
  case Abgr8888 =>
    rw [ImageFormat.frame_size, u32_mul_exact _ _ (by norm_num) hov]
  case Argb8888 =>
    rw [ImageFormat.frame_size, u32_mul_exact _ _ (by norm_num) hov]
  case Bgra8888 =>
    rw [ImageFormat.frame_size, u32_mul_exact _ _ (by norm_num) hov]
  case Rgba16161616f =>
    rw [ImageFormat.frame_size, u32_mul_exact _ _ (by norm_num) hov]
  case Rgba16161616 =>
    rw [ImageFormat.frame_size, u32_mul_exact _ _ (by norm_num) hov]

/-- C3 (witness): `Rgb565` at 17×256 has 2 bytes per pixel and frame size
`17 * 256 * 2 = 8704`. -/
theorem frame_size_uncompressed_witness :
    bytes_per_pixel .Rgb565 = some 2 ∧
    ImageFormat.Rgb565.frame_size 17 256 = .ok 8704 := by
  refine ⟨rfl, ?_⟩
  have h := frame_size_uncompressed .Rgb565 17 256 2 rfl (by norm_num)
  simpa using h

/-- C4: `frame_size` implements the `ceil(w/4) * ceil(h/4) * block_bytes`
rule only for `Dxt1` (8) and `Dxt5` (16) — shown here at 4×4 and at the
1×1 boundary — while the other two block-compressed formats, `Dxt3` and
`Dxt1Onebitalpha`, fall through to `UnsupportedImageFormat` even though
`decode` has dedicated decompression arms for them. -/
theorem frame_size_dxt_eval :
    ImageFormat.Dxt3.frame_size 4 4 =
      .error (.UnsupportedImageFormat .Dxt3) ∧
    ImageFormat.Dxt1Onebitalpha.frame_size 4 4 =
      .error (.UnsupportedImageFormat .Dxt1Onebitalpha) ∧
    ImageFormat.Dxt1.frame_size 4 4 = .ok 8 ∧
    ImageFormat.Dxt5.frame_size 4 4 = .ok 16 ∧
    ImageFormat.Dxt1.frame_size 1 1 = .ok 8 ∧
    ImageFormat.Dxt5.frame_size 1 1 = .ok 16 := by
  decide

/-- C9: the `None` format (code `-1`) is sized `Ok(0)` for every width and
height — neither positive nor rejected — so whenever the offset
computation succeeds and the base offset is within the buffer, a
`None`-format frame locates as the empty byte view. -/
theorem frame_size_none (w h : Nat) :
    ImageFormat.None.frame_size w h = .ok 0 ∧
    ∀ (bytes : List UInt8) (offset off : Nat),
      offset + off ≤ bytes.length →
      VTFImage.get_frame ⟨.None, w, h, bytes, offset⟩ (.ok off) = .ok [] := by
  refine ⟨rfl, ?_⟩
  intro bytes offset off hb
  unfold VTFImage.get_frame
  simp only [ImageFormat.frame_size]
  rw [if_pos (by omega)]
  simp

/-- C9 (witness): a 5×7 `None`-format frame at base offset 2 of a 2-byte
buffer has size 0 and locates as the empty view. -/
theorem frame_size_none_witness :
    ImageFormat.None.frame_size 5 7 = .ok 0 ∧
    VTFImage.get_frame ⟨.None, 5, 7, [1, 2], 1⟩ (.ok 1) = .ok [] :=
  ⟨(frame_size_none 5 7).1, (frame_size_none 5 7).2 [1, 2] 1 1 (by decide)⟩

/-- A `get_frame` error can only be the error produced by `frame_size`
(when the external offset result is `ok`). -/
theorem get_frame_err_frame_size (img : VTFImage) (off : Nat) (e : Error)
    (h : img.get_frame (.ok off) = .err e) :
    img.format.frame_size img.width img.height = .error e := by
  unfold VTFImage.get_frame at h
  cases hfs : img.format.frame_size img.width img.height with
  | error e2 =>
    rw [hfs] at h
    simp only [RResult.err.injEq] at h
    rw [h]
  | ok size =>
    rw [hfs] at h
    dsimp only at h
    split at h <;> simp_all

/-- Every `frame_size` error is `UnsupportedImageFormat` of the queried
format itself. -/
theorem frame_size_error_eq (fmt : ImageFormat) (w h : Nat) (e : Error)
    (he : fmt.frame_size w h = .error e) : e = .UnsupportedImageFormat fmt := by
  cases fmt <;> simp only [ImageFormat.frame_size, Except.error.injEq,
    reduceCtorEq] at he <;> exact he.symm

/-- C6 (counterexample): for the out-of-dispatch format `Rgb565` on an
empty buffer the located range is out of bounds and `decode` panics
instead of returning `UnsupportedImageFormat`. -/
theorem decode_unsupported_oob_panics :
    VTFImage.decode ⟨.Rgb565, 1, 1, [], 0⟩ decompress0 (.ok 0) = .panicked := by
  decide

/-- C6 (amended): for every format outside the decode dispatch set,
whenever the external offset computation succeeds and the call does not
hit the out-of-bounds panic in `get_frame`, `decode` returns exactly
`UnsupportedImageFormat(format)` — never a zeroed or partial pixel
buffer. -/
theorem decode_unsupported (fmt : ImageFormat) (w h : Nat) (bytes : List UInt8)
    (offset off : Nat)
    (dec : Texpresso.Format → List UInt8 → Nat → Nat → List UInt8 → List UInt8)
    (hfmt : in_dispatch fmt = false)
    (hnp : VTFImage.get_frame ⟨fmt, w, h, bytes, offset⟩ (.ok off) ≠ .panicked) :
    VTFImage.decode ⟨fmt, w, h, bytes, offset⟩ dec (.ok off) =
      .err (.UnsupportedImageFormat fmt) := by
  unfold VTFImage.decode
  cases hgf : VTFImage.get_frame ⟨fmt, w, h, bytes, offset⟩ (.ok off) with
  | panicked => exact absurd hgf hnp
  | err e =>
    have he : e = .UnsupportedImageFormat fmt :=
      frame_size_error_eq fmt w h e
        (get_frame_err_frame_size ⟨fmt, w, h, bytes, offset⟩ off e hgf)
    dsimp only
    rw [he]
  | ok raw =>
    dsimp only
    cases fmt <;>
      first
        | rfl
        | exact absurd hfmt (by simp [in_dispatch])

/-- C6 (witness): `Rgb565` with an in-bounds 1×1 frame decodes to
`UnsupportedImageFormat(Rgb565)`. -/
theorem decode_unsupported_witness :
    VTFImage.decode ⟨.Rgb565, 1, 1, [0, 0], 0⟩ decompress0 (.ok 0) =
      .err (.UnsupportedImageFormat .Rgb565) :=
  decode_unsupported .Rgb565 1 1 [0, 0] 0 0 decompress0 (by decide) (by decide)

/-- C7: the `Rgba8888` decode arm is a byte-for-byte identity copy: if
`get_frame` yields a raw view of length `w * h * 4`, `decode` returns an
`Rgba8` image whose backing buffer is exactly that view (so a zero-filled
view of length `w * h * 4` yields a zero-filled buffer of that length). -/
theorem decode_rgba8888_identity (w h : Nat) (bytes : List UInt8)
    (offset off : Nat)
    (dec : Texpresso.Format → List UInt8 → Nat → Nat → List UInt8 → List UInt8)
    (raw : List UInt8)
    (hgf : VTFImage.get_frame ⟨.Rgba8888, w, h, bytes, offset⟩ (.ok off) =
      .ok raw)
    (hlen : raw.length = w * h * 4) :
    VTFImage.decode ⟨.Rgba8888, w, h, bytes, offset⟩ dec (.ok off) =
      .ok (.ImageRgba8 w h raw) := by
  unfold VTFImage.decode
  rw [hgf]
  dsimp only
  unfold image_from_buffer
  rw [if_pos (le_of_eq hlen.symm)]
  rfl

/-- C7 (witness): a zero-filled 1×1 `Rgba8888` frame decodes to the
zero-filled 4-byte buffer. -/
theorem decode_rgba8888_identity_witness :
    VTFImage.decode ⟨.Rgba8888, 1, 1, [0, 0, 0, 0], 0⟩ decompress0 (.ok 0) =
      .ok (.ImageRgba8 1 1 [0, 0, 0, 0]) := by
  have h := decode_rgba8888_identity 1 1 [0, 0, 0, 0] 0 0 decompress0
    [0, 0, 0, 0] (by decide) (by decide)
  simpa using h

/-- C8: for each of the four block-compressed formats, `decode` on a
successfully located frame hands the raw view together with the image's
width and height to the external decompressor (scheme `Bc1` for
`Dxt1`/`Dxt1Onebitalpha`, `Bc2` for `Dxt3`, `Bc3` for `Dxt5`), writing
into a `w * h * 4`-byte output, and returns that output unchanged as the
`Rgba8` canonical image of size `w * h * 4`. -/
theorem decode_dxt_formats (fmt : ImageFormat) (w h : Nat)
    (bytes : List UInt8) (offset off : Nat)
    (dec : Texpresso.Format → List UInt8 → Nat → Nat → List UInt8 → List UInt8)
    (hdec : ∀ v b ww hh init, (dec v b ww hh init).length = init.length)
    (raw : List UInt8)
    (hfmt : fmt = .Dxt1 ∨ fmt = .Dxt1Onebitalpha ∨ fmt = .Dxt3 ∨ fmt = .Dxt5)
    (hgf : VTFImage.get_frame ⟨fmt, w, h, bytes, offset⟩ (.ok off) = .ok raw) :
    VTFImage.decode ⟨fmt, w, h, bytes, offset⟩ dec (.ok off) =
      .ok (.ImageRgba8 w h
        (dec (dxt_variant fmt) raw w h (List.replicate (w * h * 4) 0))) ∧
    (dec (dxt_variant fmt) raw w h (List.replicate (w * h * 4) 0)).length =
      w * h * 4 := by
  have hl : ∀ v, (dec v raw w h (List.replicate (w * h * 4) 0)).length =
      w * h * 4 := by
    intro v
    rw [hdec]
    exact List.length_replicate _ _
  rcases hfmt with rfl | rfl | rfl | rfl <;>
    refine ⟨?_, hl _⟩ <;>
      (unfold VTFImage.decode
       rw [hgf]
       dsimp only
       unfold VTFImage.decode_dxt image_from_buffer
       rw [if_pos (le_of_eq (hl _).symm)]
       rfl)

/-- C8 (witness): a 1×1 `Dxt1` frame (one 8-byte block) decodes through
the decompressor into the 4-byte `Rgba8` output buffer. -/
theorem decode_dxt_formats_witness :
    VTFImage.decode ⟨.Dxt1, 1, 1, List.replicate 8 0, 0⟩ decompress0
      (.ok 0) = .ok (.ImageRgba8 1 1 (List.replicate 4 0)) := by
  have h := decode_dxt_formats .Dxt1 1 1 (List.replicate 8 0) 0 0 decompress0
    (fun _ _ _ _ _ => rfl) (List.replicate 8 0) (Or.inl rfl) (by decide)
  simpa [decompress0, dxt_variant] using h.1

/-- C2: decoding a two-pixel `Bgra8888` frame of `[B=10, G=20, R=30, A=40]`
pixels does channel-swap the 4-byte chunks, but then wraps the whole
`w * h * 4`-byte buffer in an `Rgb8` image: the buffer keeps length 8
(not `w * h * 3 = 6`), and pixel 1 — read at 3-byte stride — is
`[40, 30, 20]`, not `[30, 20, 10]`. -/
theorem decode_bgra8888_eval :
    VTFImage.decode ⟨.Bgra8888, 2, 1, [10, 20, 30, 40, 10, 20, 30, 40], 0⟩
        decompress0 (.ok 0) =
      .ok (.ImageRgb8 2 1 [30, 20, 10, 40, 30, 20, 10, 40]) ∧
    rgb8_pixel [30, 20, 10, 40, 30, 20, 10, 40] 1 = [40, 30, 20] ∧
    ([30, 20, 10, 40, 30, 20, 10, 40] : List UInt8).length = 2 * 1 * 4 ∧
    (2 * 1 * 3 : Nat) ≠ 8 := by
  decide

/-- C5: decoding a two-pixel `Bgr888` frame shows that `convert_bgra`
walks the byte stream in 4-byte chunks, not 3-byte pixels: the frame
`[1, 2, 3, 4, 5, 6]` becomes `[3, 2, 1, 4, 5, 6]`, so pixel 1 is the
untouched `[4, 5, 6]` instead of its reversal `[6, 5, 4]`. -/
theorem decode_bgr888_eval :
    VTFImage.decode ⟨.Bgr888, 2, 1, [1, 2, 3, 4, 5, 6], 0⟩ decompress0
        (.ok 0) =
      .ok (.ImageRgb8 2 1 [3, 2, 1, 4, 5, 6]) ∧
    rgb8_pixel [3, 2, 1, 4, 5, 6] 1 = [4, 5, 6] ∧
    ([4, 5, 6] : List UInt8) ≠ [6, 5, 4] := by
  decide

/-- `convert_bgra` preserves the length of the byte vector. -/
theorem convert_bgra_length : ∀ v : List UInt8,
    (convert_bgra v).length = v.length
  | _ :: _ :: _ :: _ :: rest => by
    simp [convert_bgra, convert_bgra_length rest]
  | [] => rfl
  | [_] => rfl
  | [_, _] => rfl
  | [_, _, _] => rfl

/-- Applying `convert_bgra` twice restores the byte vector. -/
theorem convert_bgra_involution : ∀ v : List UInt8,
    convert_bgra (convert_bgra v) = v
  | _ :: _ :: _ :: _ :: rest => by
    simp [convert_bgra, convert_bgra_involution rest]
  | [] => rfl
  | [_] => rfl
  | [_, _] => rfl
  | [_, _, _] => rfl

/-- Inside every complete 4-byte chunk, `convert_bgra` swaps the bytes at
offsets 0 and 2 and keeps the bytes at offsets 1 and 3. -/
theorem convert_bgra_chunk : ∀ (v : List UInt8) (k : Nat),
    4 * k + 3 < v.length →
    (convert_bgra v).getD (4 * k) 0 = v.getD (4 * k + 2) 0 ∧
    (convert_bgra v).getD (4 * k + 1) 0 = v.getD (4 * k + 1) 0 ∧
    (convert_bgra v).getD (4 * k + 2) 0 = v.getD (4 * k) 0 ∧
    (convert_bgra v).getD (4 * k + 3) 0 = v.getD (4 * k + 3) 0
  | b :: g :: r :: a :: rest, 0, _ => by
    refine ⟨?_, ?_, ?_, ?_⟩
    · rw [show 4 * 0 + 2 = 0 + 1 + 1 by norm_num, show 4 * 0 = 0 by norm_num]
      simp only [convert_bgra, List.getD_cons_succ, List.getD_cons_zero]
    · rw [show 4 * 0 + 1 = 0 + 1 by norm_num]
      simp only [convert_bgra, List.getD_cons_succ, List.getD_cons_zero]
    · rw [show 4 * 0 + 2 = 0 + 1 + 1 by norm_num, show 4 * 0 = 0 by norm_num]
      simp only [convert_bgra, List.getD_cons_succ, List.getD_cons_zero]
    · rw [show 4 * 0 + 3 = 0 + 1 + 1 + 1 by norm_num]
      simp only [convert_bgra, List.getD_cons_succ, List.getD_cons_zero]
  | b :: g :: r :: a :: rest, k + 1, hk => by
    have hr : 4 * k + 3 < rest.length := by
      simp only [List.length_cons] at hk
      omega
    have ih := convert_bgra_chunk rest k hr
    refine ⟨?_, ?_, ?_, ?_⟩
    · rw [show 4 * (k + 1) + 2 = 4 * k + 2 + 1 + 1 + 1 + 1 by ring,
        show 4 * (k + 1) = 4 * k + 1 + 1 + 1 + 1 by ring]
      simp only [convert_bgra, List.getD_cons_succ]
      exact ih.1
    · rw [show 4 * (k + 1) + 1 = 4 * k + 1 + 1 + 1 + 1 + 1 by ring]
      simp only [convert_bgra, List.getD_cons_succ]
      exact ih.2.1
    · rw [show 4 * (k + 1) + 2 = 4 * k + 2 + 1 + 1 + 1 + 1 by ring,
        show 4 * (k + 1) = 4 * k + 1 + 1 + 1 + 1 by ring]
      simp only [convert_bgra, List.getD_cons_succ]
      exact ih.2.2.1
    · rw [show 4 * (k + 1) + 3 = 4 * k + 3 + 1 + 1 + 1 + 1 by ring]
      simp only [convert_bgra, List.getD_cons_succ]
      exact ih.2.2.2
  | [], k, hk => by
    exfalso
    simp only [List.length_nil] at hk
    omega
  | [_], k, hk => by
    exfalso
    simp only [List.length_cons, List.length_nil] at hk
    omega
  | [_, _], k, hk => by
    exfalso
    simp only [List.length_cons, List.length_nil] at hk
    omega
  | [_, _, _], k, hk => by
    exfalso
    simp only [List.length_cons, List.length_nil] at hk
    omega

/-- Bytes beyond the last complete 4-byte chunk are left unchanged by
`convert_bgra`. -/
theorem convert_bgra_tail : ∀ (v : List UInt8) (i : Nat),
    4 * (v.length / 4) ≤ i →
    (convert_bgra v).getD i 0 = v.getD i 0
  | b :: g :: r :: a :: rest, i, h => by
    have hdiv : (rest.length + 4) / 4 = rest.length / 4 + 1 :=
      Nat.add_div_right _ (by norm_num)
    have hlen : (b :: g :: r :: a :: rest).length = rest.length + 4 := by
      simp only [List.length_cons]
    rw [hlen, hdiv] at h
    obtain ⟨j, rfl⟩ : ∃ j, i = j + 1 + 1 + 1 + 1 := ⟨i - 4, by omega⟩
    have hj : 4 * (rest.length / 4) ≤ j := by omega
    simp only [convert_bgra, List.getD_cons_succ]
    exact convert_bgra_tail rest j hj
  | [], i, _ => rfl
  | [_], i, _ => rfl
  | [_, _], i, _ => rfl
  | [_, _, _], i, _ => rfl

/-- C10: `convert_bgra` preserves length; within every complete 4-byte
chunk it swaps the bytes at indices `4k` and `4k + 2` and keeps indices
`4k + 1` and `4k + 3`; trailing bytes beyond the last complete chunk are
untouched; and applying it twice restores the vector (involution). -/
theorem convert_bgra_spec (v : List UInt8) :
    (convert_bgra v).length = v.length ∧
    (∀ k, 4 * k + 3 < v.length →
      (convert_bgra v).getD (4 * k) 0 = v.getD (4 * k + 2) 0 ∧
      (convert_bgra v).getD (4 * k + 1) 0 = v.getD (4 * k + 1) 0 ∧
      (convert_bgra v).getD (4 * k + 2) 0 = v.getD (4 * k) 0 ∧
      (convert_bgra v).getD (4 * k + 3) 0 = v.getD (4 * k + 3) 0) ∧
    (∀ i, 4 * (v.length / 4) ≤ i →
      (convert_bgra v).getD i 0 = v.getD i 0) ∧
    convert_bgra (convert_bgra v) = v :=
  ⟨convert_bgra_length v, fun k hk => convert_bgra_chunk v k hk,
    fun i hi => convert_bgra_tail v i hi, convert_bgra_involution v⟩

/-- C10 (witness): on `[1, 2, 3, 4, 5]` the single complete chunk has its
first and third bytes swapped, the trailing byte 5 is untouched, and a
second application restores the vector. -/
theorem convert_bgra_spec_witness :
    (convert_bgra [1, 2, 3, 4, 5]).length = 5 ∧
    (convert_bgra [1, 2, 3, 4, 5]).getD 0 0 = 3 ∧
    (convert_bgra [1, 2, 3, 4, 5]).getD 4 0 = 5 ∧
    convert_bgra (convert_bgra [1, 2, 3, 4, 5]) = [1, 2, 3, 4, 5] := by
  have h := convert_bgra_spec [1, 2, 3, 4, 5]
  refine ⟨by simpa using h.1, ?_, ?_, h.2.2.2⟩
  · have h0 := (h.2.1 0 (by decide)).1
    simp only [show 4 * 0 = 0 by ring, show 4 * 0 + 2 = 2 by ring] at h0
    rw [h0]
    decide
  · have h4 := h.2.2.1 4 (by decide)
    rw [h4]
    decide

end Vtf
